import Mathlib

/-!
Shallow embedding of the `aossoa` crate (src/src/lib.rs).

The crate is a macro; its only concrete instantiation in the repository is the
`Rgb` schema of the tests (`struct Rgb { r: u8, g: u8, b: u8 }`), which we use
as the representative schema.  Rust `Vec<T>` is modelled as a list of elements
together with an allocated capacity; panics (`unwrap`, out-of-bounds indexing)
are modelled as `none` results.
-/

namespace Aossoa

/-- Model of Rust `Vec<α>`: stored elements plus allocated capacity. -/
structure RVec (α : Type) where
  data : List α
  cap : Nat
deriving Repr, DecidableEq

namespace RVec

/-- Rust `Vec::with_capacity(n)`: empty, capacity `n` (Rust guarantees at least `n`). -/
def with_capacity (n : Nat) : RVec α := ⟨[], n⟩

/-- Rust `Vec::len`. -/
def len (v : RVec α) : Nat := v.data.length

/-- Rust `Vec::capacity`. -/
def capacity (v : RVec α) : Nat := v.cap

/-- Rust `Vec::push`: append; amortized-doubling growth when full. -/
def push (v : RVec α) (x : α) : RVec α :=
  ⟨v.data ++ [x],
   if v.data.length < v.cap then v.cap else max (2 * v.cap) (v.data.length + 1)⟩

/-- Rust `Vec::pop`: remove and return the last element; capacity unchanged. -/
def pop (v : RVec α) : Option α × RVec α :=
  match v.data.getLast? with
  | none => (none, v)
  | some x => (some x, ⟨v.data.dropLast, v.cap⟩)

/-- Rust `Vec::truncate`: keep the first `len` elements; capacity unchanged. -/
def truncate (v : RVec α) (len : Nat) : RVec α := ⟨v.data.take len, v.cap⟩

/-- Rust `Vec::reserve`: grow capacity to fit `len + additional`; no-op if enough. -/
def reserve (v : RVec α) (additional : Nat) : RVec α :=
  if v.data.length + additional ≤ v.cap then v
  else ⟨v.data, max (2 * v.cap) (v.data.length + additional)⟩

/-- Rust `Vec::get` / slice `get`. -/
def get (v : RVec α) (idx : Nat) : Option α := v.data[idx]?

/-- Writing through `&mut v[idx]` (the index is in bounds whenever such a
    borrow exists). -/
def set (v : RVec α) (idx : Nat) (x : α) : RVec α := ⟨v.data.set idx x, v.cap⟩

end RVec

/-- The record type of the schema: `struct Rgb { r: u8, g: u8, b: u8 }`. -/
structure Rgb where
  r : Nat
  g : Nat
  b : Nat
deriving Repr, DecidableEq

/-- A name for one of the three schema fields, to quantify over fields. -/
inductive Field where
  | r
  | g
  | b
deriving Repr, DecidableEq

/-- Read the named field of a record. -/
def Rgb.getF : Rgb → Field → Nat
  | v, .r => v.r
  | v, .g => v.g
  | v, .b => v.b

/-- Overwrite the named field of a record. -/
def Rgb.setF : Rgb → Field → Nat → Rgb
  | v, .r, x => { v with r := x }
  | v, .g, x => { v with g := x }
  | v, .b, x => { v with b := x }

-- AOS ////////////////////////////////////////////////////////////////////////

/-- Source `pub struct RgbAos(Vec<Rgb>);` -/
structure RgbAos where
  v : RVec Rgb
deriving Repr, DecidableEq

/-- Source `struct RgbAosRef { r: &Rgb }`: the shared reference borrows one stored
    record; its observable content is that record's value. -/
structure RgbAosRef where
  elem : Rgb
deriving Repr, DecidableEq

/-- Source `struct RgbAosRefMut { r: &mut Rgb }` (read side). -/
structure RgbAosRefMut where
  elem : Rgb
deriving Repr, DecidableEq

/-- Accessor `fn r(&self) -> &u8` on the AoS shared reference. -/
def RgbAosRef.r (s : RgbAosRef) : Nat := s.elem.r

/-- Accessor `fn g(&self) -> &u8` on the AoS shared reference. -/
def RgbAosRef.g (s : RgbAosRef) : Nat := s.elem.g

/-- Accessor `fn b(&self) -> &u8` on the AoS shared reference. -/
def RgbAosRef.b (s : RgbAosRef) : Nat := s.elem.b

/-- Field accessor of the AoS shared reference, by field name. -/
def RgbAosRef.field (s : RgbAosRef) (f : Field) : Nat := s.elem.getF f

namespace RgbAos

/-- Source `fn with_capacity(capacity) -> Self { RgbAos(Vec::with_capacity(capacity)) }` -/
def with_capacity (capacity : Nat) : RgbAos := ⟨RVec.with_capacity capacity⟩

/-- Trait default `fn new() -> Self { Self::with_capacity(0) }` -/
def new : RgbAos := with_capacity 0

/-- Source `fn capacity(&self) -> usize { self.0.capacity() }` -/
def capacity (s : RgbAos) : Nat := s.v.capacity

/-- Source `fn reserve(&mut self, additional)` -/
def reserve (s : RgbAos) (additional : Nat) : RgbAos := ⟨s.v.reserve additional⟩

/-- Source `fn truncate(&mut self, len)` -/
def truncate (s : RgbAos) (len : Nat) : RgbAos := ⟨s.v.truncate len⟩

/-- Source `fn push(&mut self, value)` -/
def push (s : RgbAos) (value : Rgb) : RgbAos := ⟨s.v.push value⟩

/-- Source `fn pop(&mut self) -> Option<Rgb> { self.0.pop() }`; the pair carries the
    collection after the call. -/
def pop (s : RgbAos) : Option Rgb × RgbAos :=
  ((s.v.pop).1, ⟨(s.v.pop).2⟩)

/-- Source `fn len(&self) -> usize { self.0.len() }` -/
def len (s : RgbAos) : Nat := s.v.len

/-- Trait default `fn clear(&mut self) { self.truncate(0) }` -/
def clear (s : RgbAos) : RgbAos := s.truncate 0

/-- Trait default `fn is_empty(&self) -> bool { self.len() == 0 }` -/
def is_empty (s : RgbAos) : Bool := s.len == 0

/-- Source `fn get(&self, idx) -> Option<Self::Ref>` -/
def get (s : RgbAos) (idx : Nat) : Option RgbAosRef :=
  (s.v.get idx).map (fun r => ⟨r⟩)

/-- Source `fn get_mut(&mut self, idx) -> Option<Self::Mut>` -/
def get_mut (s : RgbAos) (idx : Nat) : Option RgbAosRefMut :=
  (s.v.get idx).map (fun r => ⟨r⟩)

/-- Source `FromIterator::from_iter`: start from `new`, push each element in order. -/
def from_iter (l : List Rgb) : RgbAos := l.foldl push new

/-- The state change of `*refmut.f() = x` where `refmut = get_mut(idx)`:
    rewrite field `f` of the record stored at `idx`.  `none` when no such
    reference exists (`idx` out of bounds). -/
def write (s : RgbAos) (idx : Nat) (f : Field) (x : Nat) : Option RgbAos :=
  (s.v.get idx).map (fun old => ⟨s.v.set idx (old.setF f x)⟩)

/-- Reading field `f` of the element at `idx` through `get`. -/
def readAt (s : RgbAos) (idx : Nat) (f : Field) : Option Nat :=
  (s.get idx).map (fun ref => ref.field f)

end RgbAos

-- SOA ////////////////////////////////////////////////////////////////////////

/-- Source `pub struct RgbSoa { r: Vec<u8>, g: Vec<u8>, b: Vec<u8> }` -/
structure RgbSoa where
  r : RVec Nat
  g : RVec Nat
  b : RVec Nat
deriving Repr, DecidableEq

/-- Source `struct RgbSoaRef { soa: &RgbSoa, idx: usize }` -/
structure RgbSoaRef where
  soa : RgbSoa
  idx : Nat
deriving Repr, DecidableEq

/-- Source `struct RgbSoaRefMut { soa: &mut RgbSoa, idx: usize }` (read side). -/
structure RgbSoaRefMut where
  soa : RgbSoa
  idx : Nat
deriving Repr, DecidableEq

/-- Accessor `fn r(&self) -> &u8 { &self.soa.r[self.idx] }`; `none` models the indexing
    panic when the buffer is shorter than `idx`. -/
def RgbSoaRef.r (s : RgbSoaRef) : Option Nat := s.soa.r.get s.idx

/-- Accessor `fn g(&self) -> &u8 { &self.soa.g[self.idx] }` -/
def RgbSoaRef.g (s : RgbSoaRef) : Option Nat := s.soa.g.get s.idx

/-- Accessor `fn b(&self) -> &u8 { &self.soa.b[self.idx] }` -/
def RgbSoaRef.b (s : RgbSoaRef) : Option Nat := s.soa.b.get s.idx

/-- Field accessor of the SoA shared reference, by field name. -/
def RgbSoaRef.field (s : RgbSoaRef) (f : Field) : Option Nat :=
  match f with
  | .r => s.r
  | .g => s.g
  | .b => s.b

namespace RgbSoa

/-- Source `fn with_capacity(capacity)`: each field buffer gets the capacity. -/
def with_capacity (capacity : Nat) : RgbSoa :=
  ⟨RVec.with_capacity capacity, RVec.with_capacity capacity, RVec.with_capacity capacity⟩

/-- Trait default `fn new() -> Self { Self::with_capacity(0) }` -/
def new : RgbSoa := with_capacity 0

/-- Source `fn capacity(&self)`: the macro expansion returns the FIRST field's
    buffer capacity (`return self.r.capacity();` is hit first). -/
def capacity (s : RgbSoa) : Nat := s.r.capacity

/-- Source `fn reserve(&mut self, additional)`: applied to every field buffer. -/
def reserve (s : RgbSoa) (additional : Nat) : RgbSoa :=
  ⟨s.r.reserve additional, s.g.reserve additional, s.b.reserve additional⟩

/-- Source `fn truncate(&mut self, len)`: applied to every field buffer. -/
def truncate (s : RgbSoa) (len : Nat) : RgbSoa :=
  ⟨s.r.truncate len, s.g.truncate len, s.b.truncate len⟩

/-- Source `fn push(&mut self, value)`: decompose and append each field. -/
def push (s : RgbSoa) (value : Rgb) : RgbSoa :=
  ⟨s.r.push value.r, s.g.push value.g, s.b.push value.b⟩

/-- Source `fn len(&self)`: the macro expansion returns the FIRST field's buffer
    length (`return self.r.len();` is hit first). -/
def len (s : RgbSoa) : Nat := s.r.len

/-- Source `fn pop(&mut self)`: emptiness checked once up front against `len()`;
    otherwise each field buffer is popped and `unwrap`ped.  The outer `none`
    models the `unwrap` panic (a popped buffer was unexpectedly empty);
    `some (out, s')` is a normal return of `out` with new state `s'`. -/
def pop (s : RgbSoa) : Option (Option Rgb × RgbSoa) :=
  if s.len = 0 then some (none, s)
  else
    match s.r.pop, s.g.pop, s.b.pop with
    | (some rv, r'), (some gv, g'), (some bv, b') =>
        some (some ⟨rv, gv, bv⟩, ⟨r', g', b'⟩)
    | _, _, _ => none

/-- Trait default `fn clear(&mut self) { self.truncate(0) }` -/
def clear (s : RgbSoa) : RgbSoa := s.truncate 0

/-- Trait default `fn is_empty(&self) -> bool { self.len() == 0 }` -/
def is_empty (s : RgbSoa) : Bool := s.len == 0

/-- Source `fn get(&self, idx)`: bounds-check against `len()`, then hand out a
    `(collection, index)` reference. -/
def get (s : RgbSoa) (idx : Nat) : Option RgbSoaRef :=
  if idx ≥ s.len then none else some ⟨s, idx⟩

/-- Source `fn get_mut(&mut self, idx)`: same bounds check, mutable reference. -/
def get_mut (s : RgbSoa) (idx : Nat) : Option RgbSoaRefMut :=
  if idx ≥ s.len then none else some ⟨s, idx⟩

/-- Source `FromIterator::from_iter`: start from `new`, push each element in order. -/
def from_iter (l : List Rgb) : RgbSoa := l.foldl push new

/-- The state change of `*refmut.f() = x` where `refmut = get_mut(idx)`:
    rewrite slot `idx` of the buffer of field `f`.  `none` models the indexing
    panic of `&mut self.soa.f[self.idx]` when that buffer is too short. -/
def write (s : RgbSoa) (idx : Nat) (f : Field) (x : Nat) : Option RgbSoa :=
  match f with
  | .r => if idx < s.r.len then some { s with r := s.r.set idx x } else none
  | .g => if idx < s.g.len then some { s with g := s.g.set idx x } else none
  | .b => if idx < s.b.len then some { s with b := s.b.set idx x } else none

/-- Reading field `f` of the element at `idx` through `get`. -/
def readAt (s : RgbSoa) (idx : Nat) (f : Field) : Option Nat :=
  (s.get idx).bind (fun ref => ref.field f)

/-- The SoA lockstep invariant: every per-field buffer length equals `len()`. -/
def lockstep (s : RgbSoa) : Prop :=
  s.r.len = s.len ∧ s.g.len = s.len ∧ s.b.len = s.len

instance (s : RgbSoa) : Decidable s.lockstep := by
  unfold lockstep; exact inferInstance

end RgbSoa

-- Collection trait and iterator //////////////////////////////////////////////

/-- The part of the `RgbCollection` trait the generated iterator consumes:
    an associated `Ref` type with `get` and `len`. -/
class RgbCollection (C : Type) (Ref : outParam Type) where
  get : C → Nat → Option Ref
  len : C → Nat

instance : RgbCollection RgbAos RgbAosRef := ⟨RgbAos.get, RgbAos.len⟩

instance : RgbCollection RgbSoa RgbSoaRef := ⟨RgbSoa.get, RgbSoa.len⟩

/-- Source `pub struct RgbCollectionIterator of T { collection: &T, index: usize }` -/
structure RgbCollectionIterator (C : Type) where
  collection : C
  index : Nat

/-- Trait default `fn iter(&self)`: fresh iterator at cursor 0. -/
def RgbCollection.iter {C R : Type} [RgbCollection C R] (c : C) :
    RgbCollectionIterator C :=
  ⟨c, 0⟩

/-- Source `fn next(&mut self)`: read `get(index)`, increment the cursor
    unconditionally, return the read value (and the new iterator state). -/
def RgbCollectionIterator.next {C R : Type} [RgbCollection C R]
    (it : RgbCollectionIterator C) : Option R × RgbCollectionIterator C :=
  (RgbCollection.get it.collection it.index, ⟨it.collection, it.index + 1⟩)

/-- The iterator state after `n` calls to `next` (outputs discarded). -/
def RgbCollectionIterator.nextN {C R : Type} [RgbCollection C R] :
    RgbCollectionIterator C → Nat → RgbCollectionIterator C
  | it, 0 => it
  | it, n + 1 => RgbCollectionIterator.nextN (RgbCollectionIterator.next (R := R) it).2 n

/-- The value yielded by the `i`-th call to `next` (0-based) on `iter c`. -/
def iterOut {C R : Type} [RgbCollection C R] (c : C) (i : Nat) : Option R :=
  (RgbCollectionIterator.next (RgbCollectionIterator.nextN (R := R) (RgbCollection.iter c) i)).1

-- Operation sequences (for the running length/capacity invariant) ////////////

/-- One structural mutation from the claim "any finite sequence of push, pop,
    and truncate operations". -/
inductive Op where
  | push (x : Rgb)
  | pop
  | truncate (n : Nat)
deriving Repr, DecidableEq

/-- Apply one operation to an AoS collection. -/
def RgbAos.apply (s : RgbAos) : Op → RgbAos
  | .push x => s.push x
  | .pop => (s.pop).2
  | .truncate n => s.truncate n

/-- Apply a sequence of operations to an AoS collection, left to right. -/
def RgbAos.applyAll (s : RgbAos) (ops : List Op) : RgbAos := ops.foldl RgbAos.apply s

/-- Apply one operation to a SoA collection (a popped panic leaves no
    successor state; we keep the prior state, which the invariant concerns). -/
def RgbSoa.apply (s : RgbSoa) : Op → RgbSoa
  | .push x => s.push x
  | .pop =>
    match s.pop with
    | some (_, s') => s'
    | none => s
  | .truncate n => s.truncate n

/-- Apply a sequence of operations to a SoA collection, left to right. -/
def RgbSoa.applyAll (s : RgbSoa) (ops : List Op) : RgbSoa := ops.foldl RgbSoa.apply s

-- Helper lemmas //////////////////////////////////////////////////////////////

theorem aos_foldl_push_data (s : RgbAos) (l : List Rgb) :
    (l.foldl RgbAos.push s).v.data = s.v.data ++ l := by
  induction l generalizing s with
  | nil => simp
  | cons x xs ih => simp [List.foldl_cons, ih, RgbAos.push, RVec.push]

theorem aos_from_iter_data (l : List Rgb) : (RgbAos.from_iter l).v.data = l := by
  simp [RgbAos.from_iter, aos_foldl_push_data, RgbAos.new, RgbAos.with_capacity,
    RVec.with_capacity]

theorem soa_foldl_push_data (s : RgbSoa) (l : List Rgb) :
    (l.foldl RgbSoa.push s).r.data = s.r.data ++ l.map Rgb.r ∧
    (l.foldl RgbSoa.push s).g.data = s.g.data ++ l.map Rgb.g ∧
    (l.foldl RgbSoa.push s).b.data = s.b.data ++ l.map Rgb.b := by
  induction l generalizing s with
  | nil => simp
  | cons x xs ih =>
    obtain ⟨h1, h2, h3⟩ := ih (s.push x)
    rw [List.foldl_cons]
    refine ⟨?_, ?_, ?_⟩
    · rw [h1]; simp [RgbSoa.push, RVec.push]
    · rw [h2]; simp [RgbSoa.push, RVec.push]
    · rw [h3]; simp [RgbSoa.push, RVec.push]

theorem soa_from_iter_data (l : List Rgb) :
    (RgbSoa.from_iter l).r.data = l.map Rgb.r ∧
    (RgbSoa.from_iter l).g.data = l.map Rgb.g ∧
    (RgbSoa.from_iter l).b.data = l.map Rgb.b := by
  have h := soa_foldl_push_data RgbSoa.new l
  simpa [RgbSoa.new, RgbSoa.with_capacity, RVec.with_capacity] using h

theorem iter_nextN_state {C R : Type} [RgbCollection C R] (c : C) (j n : Nat) :
    RgbCollectionIterator.nextN (R := R) ⟨c, j⟩ n = ⟨c, j + n⟩ := by
  induction n generalizing j with
  | zero => rfl
  | succ n ih =>
    show RgbCollectionIterator.nextN (R := R) ⟨c, j + 1⟩ n = _
    rw [ih]
    congr 1
    omega

theorem iterOut_eq_get {C R : Type} [RgbCollection C R] (c : C) (i : Nat) :
    iterOut (R := R) c i = RgbCollection.get c i := by
  unfold iterOut RgbCollection.iter
  rw [iter_nextN_state]
  simp [RgbCollectionIterator.next]

theorem aos_get_eq_none (a : RgbAos) (i : Nat) : a.get i = none ↔ a.len ≤ i := by
  simp [RgbAos.get, RVec.get, RgbAos.len, RVec.len]

theorem soa_get_eq_none (s : RgbSoa) (i : Nat) : s.get i = none ↔ s.len ≤ i := by
  unfold RgbSoa.get
  split <;> simp_all

/-- Normal behaviour of the SoA `pop` on a non-empty lockstep collection:
    each per-field unwrap succeeds and the result is assembled from the last
    slot of every field buffer. -/
theorem soa_pop_spec (s : RgbSoa) (hs : s.lockstep) (h : s.len ≠ 0) :
    ∃ x s', s.pop = some (some x, s') ∧
      s.r.data.getLast? = some x.r ∧ s.g.data.getLast? = some x.g ∧
      s.b.data.getLast? = some x.b ∧
      s'.r.data = s.r.data.dropLast ∧ s'.g.data = s.g.data.dropLast ∧
      s'.b.data = s.b.data.dropLast ∧
      s'.r.cap = s.r.cap ∧ s'.len + 1 = s.len ∧ s'.lockstep := by
  obtain ⟨hr, hg, hb⟩ := hs
  have hrne : s.r.data ≠ [] := by
    intro hnil
    exact h (by simp [RgbSoa.len, RVec.len, hnil])
  have hlen : s.len = s.r.data.length := rfl
  have hgne : s.g.data ≠ [] := by
    intro hnil
    have : s.g.len = 0 := by simp [RVec.len, hnil]
    omega
  have hbne : s.b.data ≠ [] := by
    intro hnil
    have : s.b.len = 0 := by simp [RVec.len, hnil]
    omega
  obtain ⟨rv, hrv⟩ := Option.isSome_iff_exists.mp (List.getLast?_isSome.mpr hrne)
  obtain ⟨gv, hgv⟩ := Option.isSome_iff_exists.mp (List.getLast?_isSome.mpr hgne)
  obtain ⟨bv, hbv⟩ := Option.isSome_iff_exists.mp (List.getLast?_isSome.mpr hbne)
  refine ⟨⟨rv, gv, bv⟩, ⟨⟨s.r.data.dropLast, s.r.cap⟩, ⟨s.g.data.dropLast, s.g.cap⟩,
    ⟨s.b.data.dropLast, s.b.cap⟩⟩, ?_, hrv, hgv, hbv, rfl, rfl, rfl, rfl, ?_, ?_⟩
  · unfold RgbSoa.pop
    rw [if_neg h]
    simp [RVec.pop, hrv, hgv, hbv]
  · have : s.r.data.length ≠ 0 := fun hn => hrne (List.length_eq_zero.mp hn)
    simp only [RgbSoa.len, RVec.len, List.length_dropLast]
    omega
  · have h1 : s.r.data.length ≠ 0 := fun hn => hrne (List.length_eq_zero.mp hn)
    refine ⟨rfl, ?_, ?_⟩ <;>
      simp only [RgbSoa.len, RVec.len, List.length_dropLast] <;>
      simp only [RgbSoa.len, RVec.len] at hr hg hb <;> omega

theorem rvec_reserve_data {α : Type} (v : RVec α) (a : Nat) :
    (v.reserve a).data = v.data := by
  unfold RVec.reserve
  split <;> rfl

theorem aos_pop_fst (a : RgbAos) : (a.pop).1 = a.v.data.getLast? := by
  unfold RgbAos.pop RVec.pop
  cases h : a.v.data.getLast? <;> simp [h]

-- Claims /////////////////////////////////////////////////////////////////////

/-- C1: building an AoS collection and a SoA collection from the same finite
    sequence of records via `from_iter` and then reading any field of any
    index through `get` yields identical field values from both layouts. -/
theorem claim1_layout_equivalence (l : List Rgb) (i : Nat) (f : Field) :
    (RgbAos.from_iter l).readAt i f = (RgbSoa.from_iter l).readAt i f := by
  obtain ⟨hr, hg, hb⟩ := soa_from_iter_data l
  have hlen : (RgbSoa.from_iter l).len = l.length := by
    simp [RgbSoa.len, RVec.len, hr]
  have ha : (RgbAos.from_iter l).readAt i f = l[i]?.map (fun x => x.getF f) := by
    simp [RgbAos.readAt, RgbAos.get, RVec.get, aos_from_iter_data,
      RgbAosRef.field, Option.map_map, Function.comp_def, Rgb.getF]
  rw [ha]
  unfold RgbSoa.readAt RgbSoa.get
  by_cases hi : i < l.length
  · rw [if_neg (by omega)]
    have hif : l[i]? = some l[i] := List.getElem?_eq_getElem hi
    cases f <;>
      simp [RgbSoaRef.field, RgbSoaRef.r, RgbSoaRef.g, RgbSoaRef.b, RVec.get,
        hr, hg, hb, hif, List.getElem?_map, Rgb.getF]
  · rw [if_pos (by omega)]
    simp [List.getElem?_eq_none_iff.mpr (by omega : l.length ≤ i)]

/-- C3: for either layout, the `i`-th call to `next` on a fresh iterator
    yields exactly `get i`; hence over a collection of length `N` the iterator
    yields the references `get 0 .. get (N-1)` in index order and from the
    `N`-th step on every call returns `none` (the iterator is terminal). -/
theorem claim3_iterator_complete (a : RgbAos) (s : RgbSoa) (i : Nat) :
    iterOut a i = a.get i ∧ (iterOut a i = none ↔ a.len ≤ i) ∧
    iterOut s i = s.get i ∧ (iterOut s i = none ↔ s.len ≤ i) := by
  have h1 : iterOut a i = a.get i := iterOut_eq_get a i
  have h2 : iterOut s i = s.get i := iterOut_eq_get s i
  exact ⟨h1, by rw [h1]; exact aos_get_eq_none a i,
    h2, by rw [h2]; exact soa_get_eq_none s i⟩

/-- C5: for either layout, `get idx` and `get_mut idx` return `none` exactly
    when `idx ≥ len()`; in particular `get len()` and `get_mut len()` are
    `none` for every length, including 0. -/
theorem claim5_out_of_bounds (a : RgbAos) (s : RgbSoa) (idx : Nat) :
    (a.get idx = none ↔ a.len ≤ idx) ∧ (a.get_mut idx = none ↔ a.len ≤ idx) ∧
    (s.get idx = none ↔ s.len ≤ idx) ∧ (s.get_mut idx = none ↔ s.len ≤ idx) ∧
    a.get a.len = none ∧ a.get_mut a.len = none ∧
    s.get s.len = none ∧ s.get_mut s.len = none := by
  have h2 : a.get_mut idx = none ↔ a.len ≤ idx := by
    simp [RgbAos.get_mut, RVec.get, RgbAos.len, RVec.len]
  have h4 : s.get_mut idx = none ↔ s.len ≤ idx := by
    unfold RgbSoa.get_mut
    split <;> simp_all
  refine ⟨aos_get_eq_none a idx, h2, soa_get_eq_none s idx, h4, ?_, ?_, ?_, ?_⟩
  · exact (aos_get_eq_none a a.len).mpr le_rfl
  · simp [RgbAos.get_mut, RVec.get, RgbAos.len, RVec.len]
  · exact (soa_get_eq_none s s.len).mpr le_rfl
  · unfold RgbSoa.get_mut
    simp

/-- C6: for either layout, pushing a record `x` and then immediately popping
    returns `some x` with all field values unchanged, restores every stored
    element, and brings the length back to its pre-push value. -/
theorem claim6_push_pop (a : RgbAos) (s : RgbSoa) (x : Rgb) :
    ((a.push x).pop).1 = some x ∧ ((a.push x).pop).2.v.data = a.v.data ∧
    ((a.push x).pop).2.len = a.len ∧
    ∃ s', (s.push x).pop = some (some x, s') ∧
      s'.r.data = s.r.data ∧ s'.g.data = s.g.data ∧ s'.b.data = s.b.data ∧
      s'.len = s.len := by
  refine ⟨?_, ?_, ?_, ?_⟩
  · simp [RgbAos.push, RgbAos.pop, RVec.push, RVec.pop, List.getLast?_concat]
  · simp [RgbAos.push, RgbAos.pop, RVec.push, RVec.pop, List.getLast?_concat]
  · simp [RgbAos.push, RgbAos.pop, RgbAos.len, RVec.push, RVec.pop, RVec.len,
      List.getLast?_concat]
  · refine ⟨⟨⟨s.r.data, (s.r.push x.r).cap⟩, ⟨s.g.data, (s.g.push x.g).cap⟩,
      ⟨s.b.data, (s.b.push x.b).cap⟩⟩, ?_, rfl, rfl, rfl, rfl⟩
    unfold RgbSoa.pop
    rw [if_neg (by simp [RgbSoa.push, RgbSoa.len, RVec.push, RVec.len])]
    simp [RgbSoa.push, RVec.push, RVec.pop, List.getLast?_concat]

/-- C2: the SoA lockstep invariant — every per-field buffer length equal to
    `len()` — is preserved by every mutating operation: `push`, `truncate`,
    `reserve`, `clear`, and any state a non-panicking `pop` returns. -/
theorem claim2_soa_lockstep (s : RgbSoa) (hs : s.lockstep) (x : Rgb) (k m : Nat) :
    (s.push x).lockstep ∧ (s.truncate k).lockstep ∧ (s.reserve m).lockstep ∧
    s.clear.lockstep ∧ ∀ out s', s.pop = some (out, s') → s'.lockstep := by
  obtain ⟨hr, hg, hb⟩ := hs
  simp only [RgbSoa.len, RVec.len] at hg hb
  refine ⟨?_, ?_, ?_, ?_, ?_⟩
  · simp only [RgbSoa.lockstep, RgbSoa.push, RgbSoa.len, RVec.push, RVec.len,
      List.length_append, List.length_cons, List.length_nil]
    refine ⟨by trivial, by omega, by omega⟩
  · simp only [RgbSoa.lockstep, RgbSoa.truncate, RgbSoa.len, RVec.truncate,
      RVec.len, List.length_take]
    refine ⟨by trivial, by omega, by omega⟩
  · simp only [RgbSoa.lockstep, RgbSoa.reserve, RgbSoa.len, RVec.len,
      rvec_reserve_data]
    refine ⟨by trivial, by omega, by omega⟩
  · simp only [RgbSoa.lockstep, RgbSoa.clear, RgbSoa.truncate, RgbSoa.len,
      RVec.truncate, RVec.len, List.length_take]
    refine ⟨by trivial, by omega, by omega⟩
  · intro out s' h
    by_cases hz : s.len = 0
    · unfold RgbSoa.pop at h
      rw [if_pos hz] at h
      obtain ⟨rfl, rfl⟩ : out = none ∧ s' = s := by
        constructor <;> injection h with h2 <;> cases h2 <;> rfl
      exact ⟨rfl, by simp only [RgbSoa.len, RVec.len]; omega,
        by simp only [RgbSoa.len, RVec.len]; omega⟩
    · obtain ⟨y, s'', hp, -, -, -, -, -, -, -, -, hls⟩ :=
        soa_pop_spec s ⟨hr, by simp only [RgbSoa.len, RVec.len]; omega,
          by simp only [RgbSoa.len, RVec.len]; omega⟩ hz
      rw [hp] at h
      injection h with h2
      injection h2 with h3 h4
      rw [← h4]
      exact hls

/-- C2 witness at a concrete lockstep collection. -/
theorem claim2_soa_lockstep_witness :
    (⟨⟨[1], 2⟩, ⟨[2], 2⟩, ⟨[3], 2⟩⟩ : RgbSoa).lockstep ∧
    ((⟨⟨[1], 2⟩, ⟨[2], 2⟩, ⟨[3], 2⟩⟩ : RgbSoa).push ⟨4, 5, 6⟩).lockstep :=
  ⟨by decide,
   (claim2_soa_lockstep ⟨⟨[1], 2⟩, ⟨[2], 2⟩, ⟨[3], 2⟩⟩ (by decide) ⟨4, 5, 6⟩ 0 0).1⟩

/-- C4: for either layout, `pop` returns `none` iff the length is 0; on the
    `none` result the state is unchanged (SoA checks emptiness once up front);
    on success the result is reassembled from the last slot of every field
    buffer and the length decreases by one. -/
theorem claim4_pop_empty (a : RgbAos) (s : RgbSoa) (hs : s.lockstep) :
    ((a.pop).1 = none ↔ a.len = 0) ∧
    (a.len = 0 → (a.pop).2 = a) ∧
    (∀ x, (a.pop).1 = some x →
      a.v.data.getLast? = some x ∧ (a.pop).2.len + 1 = a.len) ∧
    (s.len = 0 → s.pop = some (none, s)) ∧
    (∀ out s', s.pop = some (out, s') → (out = none ↔ s.len = 0)) ∧
    (s.len ≠ 0 → ∃ x s', s.pop = some (some x, s') ∧
      s.r.data.getLast? = some x.r ∧ s.g.data.getLast? = some x.g ∧
      s.b.data.getLast? = some x.b ∧ s'.len + 1 = s.len) := by
  refine ⟨?_, ?_, ?_, ?_, ?_, ?_⟩
  · rw [aos_pop_fst]
    simp [RgbAos.len, RVec.len, List.length_eq_zero]
  · intro h
    have hnil : a.v.data = [] := by
      simpa [RgbAos.len, RVec.len, List.length_eq_zero] using h
    obtain ⟨⟨d, c⟩⟩ := a
    simp only at hnil
    simp [RgbAos.pop, RVec.pop, hnil]
  · intro x hx
    rw [aos_pop_fst] at hx
    have hne : a.v.data ≠ [] := by
      intro hnil
      rw [hnil] at hx
      simp at hx
    refine ⟨hx, ?_⟩
    have hlen : a.v.data.length ≠ 0 := fun hz => hne (List.length_eq_zero.mp hz)
    simp only [RgbAos.pop, RVec.pop, hx, RgbAos.len, RVec.len,
      List.length_dropLast]
    omega
  · intro h
    unfold RgbSoa.pop
    rw [if_pos h]
  · intro out s' h
    by_cases hz : s.len = 0
    · unfold RgbSoa.pop at h
      rw [if_pos hz] at h
      injection h with h2
      injection h2 with h3 h4
      simp [← h3, hz]
    · obtain ⟨y, s'', hp, -⟩ := soa_pop_spec s hs hz
      rw [hp] at h
      injection h with h2
      injection h2 with h3 h4
      simp [← h3, hz]
  · intro hz
    obtain ⟨y, s'', hp, h1, h2, h3, -, -, -, -, hl, -⟩ := soa_pop_spec s hs hz
    exact ⟨y, s'', hp, h1, h2, h3, hl⟩

/-- C4 witness at concrete collections. -/
theorem claim4_pop_empty_witness :
    ((⟨⟨[⟨1, 2, 3⟩], 4⟩⟩ : RgbAos).pop.1 = none ↔
      (⟨⟨[⟨1, 2, 3⟩], 4⟩⟩ : RgbAos).len = 0) :=
  (claim4_pop_empty ⟨⟨[⟨1, 2, 3⟩], 4⟩⟩ ⟨⟨[1], 1⟩, ⟨[2], 1⟩, ⟨[3], 1⟩⟩
    (by decide)).1

/-- C7: for either layout, `truncate k` is idempotent, `truncate len()` leaves
    the collection unchanged (for SoA under its lockstep invariant), and
    `truncate 0` empties the collection so `is_empty()` is true. -/
theorem claim7_truncate (a : RgbAos) (s : RgbSoa) (k : Nat) (hs : s.lockstep) :
    (a.truncate k).truncate k = a.truncate k ∧
    a.truncate a.len = a ∧
    (a.truncate 0).is_empty = true ∧
    (s.truncate k).truncate k = s.truncate k ∧
    s.truncate s.len = s ∧
    (s.truncate 0).is_empty = true := by
  obtain ⟨-, hg, hb⟩ := hs
  simp only [RgbSoa.len, RVec.len] at hg hb
  refine ⟨?_, ?_, ?_, ?_, ?_, ?_⟩
  · simp [RgbAos.truncate, RVec.truncate, List.take_take]
  · obtain ⟨⟨d, c⟩⟩ := a
    simp [RgbAos.truncate, RVec.truncate, RgbAos.len, RVec.len]
  · simp [RgbAos.is_empty, RgbAos.truncate, RVec.truncate, RgbAos.len, RVec.len]
  · simp [RgbSoa.truncate, RVec.truncate, List.take_take]
  · obtain ⟨⟨rd, rc⟩, ⟨gd, gc⟩, ⟨bd, bc⟩⟩ := s
    simp only [RgbSoa.truncate, RVec.truncate, RgbSoa.len, RVec.len,
      RgbSoa.mk.injEq, RVec.mk.injEq]
    refine ⟨⟨List.take_length rd, by trivial⟩, ⟨?_, by trivial⟩, ⟨?_, by trivial⟩⟩
    · exact List.take_of_length_le (le_of_eq hg)
    · exact List.take_of_length_le (le_of_eq hb)
  · simp [RgbSoa.is_empty, RgbSoa.truncate, RVec.truncate, RgbSoa.len, RVec.len]

/-- C7 witness at concrete collections. -/
theorem claim7_truncate_witness :
    (⟨⟨[1], 1⟩, ⟨[2], 1⟩, ⟨[3], 1⟩⟩ : RgbSoa).truncate
        (⟨⟨[1], 1⟩, ⟨[2], 1⟩, ⟨[3], 1⟩⟩ : RgbSoa).len =
      (⟨⟨[1], 1⟩, ⟨[2], 1⟩, ⟨[3], 1⟩⟩ : RgbSoa) :=
  (claim7_truncate ⟨⟨[⟨1, 2, 3⟩], 4⟩⟩ ⟨⟨[1], 1⟩, ⟨[2], 1⟩, ⟨[3], 1⟩⟩ 5
    (by decide)).2.2.2.2.1

theorem rvec_push_inv {α : Type} (v : RVec α) (x : α) :
    (v.push x).len ≤ (v.push x).cap := by
  unfold RVec.push RVec.len
  simp only [List.length_append, List.length_cons, List.length_nil]
  split
  · omega
  · exact le_trans (by omega) (le_max_right (2 * v.cap) (v.data.length + 1))

theorem rvec_pop_inv {α : Type} (v : RVec α) (h : v.len ≤ v.cap) :
    (v.pop).2.len ≤ (v.pop).2.cap := by
  unfold RVec.len at h
  unfold RVec.pop RVec.len
  cases hc : v.data.getLast?
  · simpa [hc] using h
  · simp only [hc, List.length_dropLast]
    omega

theorem rvec_truncate_inv {α : Type} (v : RVec α) (h : v.len ≤ v.cap) (k : Nat) :
    (v.truncate k).len ≤ (v.truncate k).cap := by
  unfold RVec.len at h
  unfold RVec.truncate RVec.len
  simp only [List.length_take]
  omega

theorem aos_apply_inv (a : RgbAos) (h : a.len ≤ a.capacity) (op : Op) :
    (a.apply op).len ≤ (a.apply op).capacity := by
  cases op with
  | push x => exact rvec_push_inv a.v x
  | pop => exact rvec_pop_inv a.v h
  | truncate n => exact rvec_truncate_inv a.v h n

theorem aos_applyAll_inv (a : RgbAos) (h : a.len ≤ a.capacity) (ops : List Op) :
    (a.applyAll ops).len ≤ (a.applyAll ops).capacity := by
  induction ops generalizing a with
  | nil => exact h
  | cons op ops ih => exact ih (a.apply op) (aos_apply_inv a h op)

/-- The `pop` case of `RgbSoa.apply` either keeps the state or pops the first
    field's buffer. -/
theorem soa_apply_pop (s : RgbSoa) :
    s.apply Op.pop = s ∨ (s.apply Op.pop).r = (s.r.pop).2 := by
  by_cases hz : s.len = 0
  · left
    simp [RgbSoa.apply, RgbSoa.pop, hz]
  · rcases h1 : s.r.pop with ⟨o1, r'⟩
    rcases h2 : s.g.pop with ⟨o2, g'⟩
    rcases h3 : s.b.pop with ⟨o3, b'⟩
    cases o1 <;> cases o2 <;> cases o3 <;>
      simp [RgbSoa.apply, RgbSoa.pop, hz, h1, h2, h3]

theorem soa_apply_inv (s : RgbSoa) (h : s.len ≤ s.capacity) (op : Op) :
    (s.apply op).len ≤ (s.apply op).capacity := by
  cases op with
  | push x => exact rvec_push_inv s.r x.r
  | truncate n => exact rvec_truncate_inv s.r h n
  | pop =>
    rcases soa_apply_pop s with hc | hc
    · rw [hc]
      exact h
    · show (s.apply Op.pop).r.len ≤ (s.apply Op.pop).r.cap
      rw [hc]
      exact rvec_pop_inv s.r h

theorem soa_applyAll_inv (s : RgbSoa) (h : s.len ≤ s.capacity) (ops : List Op) :
    (s.applyAll ops).len ≤ (s.applyAll ops).capacity := by
  induction ops generalizing s with
  | nil => exact h
  | cons op ops ih => exact ih (s.apply op) (soa_apply_inv s h op)

/-- C8: for either layout, right after `with_capacity n` the capacity is at
    least `n` and the length 0; and after any finite sequence of
    `push`/`pop`/`truncate` operations, `len() ≤ capacity()` holds. -/
theorem claim8_len_le_capacity (n : Nat) (ops : List Op) :
    n ≤ (RgbAos.with_capacity n).capacity ∧ (RgbAos.with_capacity n).len = 0 ∧
    ((RgbAos.with_capacity n).applyAll ops).len ≤
      ((RgbAos.with_capacity n).applyAll ops).capacity ∧
    n ≤ (RgbSoa.with_capacity n).capacity ∧ (RgbSoa.with_capacity n).len = 0 ∧
    ((RgbSoa.with_capacity n).applyAll ops).len ≤
      ((RgbSoa.with_capacity n).applyAll ops).capacity :=
  ⟨le_refl n, rfl,
   aos_applyAll_inv (RgbAos.with_capacity n)
     (show (RgbAos.with_capacity n).len ≤ (RgbAos.with_capacity n).capacity from
       Nat.zero_le n) ops,
   le_refl n, rfl,
   soa_applyAll_inv (RgbSoa.with_capacity n)
     (show (RgbSoa.with_capacity n).len ≤ (RgbSoa.with_capacity n).capacity from
       Nat.zero_le n) ops⟩

theorem getF_setF (v : Rgb) (f f' : Field) (x : Nat) :
    (v.setF f x).getF f' = if f' = f then x else v.getF f' := by
  cases f <;> cases f' <;> simp [Rgb.setF, Rgb.getF]

/-- The field buffer of a SoA collection named by `f`. -/
def RgbSoa.buf (s : RgbSoa) : Field → RVec Nat
  | .r => s.r
  | .g => s.g
  | .b => s.b

theorem soa_readAt_eq (s : RgbSoa) (j : Nat) (f : Field) :
    s.readAt j f = if j < s.len then (s.buf f).get j else none := by
  unfold RgbSoa.readAt RgbSoa.get
  by_cases hj : j < s.len
  · rw [if_neg (by omega), if_pos hj]
    cases f <;>
      simp [RgbSoaRef.field, RgbSoaRef.r, RgbSoaRef.g, RgbSoaRef.b, RgbSoa.buf]
  · rw [if_pos (by omega), if_neg hj]
    simp

/-- Writing through the SoA mutable reference rewrites exactly slot `idx` of
    the buffer of field `f`, leaving length and every other buffer unchanged. -/
theorem soa_write_spec (s : RgbSoa) (i : Nat) (f : Field) (x : Nat)
    (hbuf : i < (s.buf f).len) :
    ∃ s', s.write i f x = some s' ∧ s'.len = s.len ∧
      s'.buf f = (s.buf f).set i x ∧ ∀ f', f' ≠ f → s'.buf f' = s.buf f' := by
  cases f
  · exact ⟨{ s with r := s.r.set i x },
      by simp only [RgbSoa.buf] at hbuf; simp [RgbSoa.write, hbuf],
      by simp [RgbSoa.len, RVec.len, RVec.set],
      by simp [RgbSoa.buf],
      by intro f' hf'; cases f' <;> simp [RgbSoa.buf] at *⟩
  · exact ⟨{ s with g := s.g.set i x },
      by simp only [RgbSoa.buf] at hbuf; simp [RgbSoa.write, hbuf],
      rfl,
      by simp [RgbSoa.buf],
      by intro f' hf'; cases f' <;> simp [RgbSoa.buf] at *⟩
  · exact ⟨{ s with b := s.b.set i x },
      by simp only [RgbSoa.buf] at hbuf; simp [RgbSoa.write, hbuf],
      rfl,
      by simp [RgbSoa.buf],
      by intro f' hf'; cases f' <;> simp [RgbSoa.buf] at *⟩

/-- C9: for either layout and any valid index `i`, the mutable reference
    exists, and writing `x` to field `f` through it changes exactly field `f`
    of the logical record at `i` — a subsequent read of `(i, f)` returns `x`
    and every other (index, field) pair reads unchanged. -/
theorem claim9_write_frame (a : RgbAos) (s : RgbSoa) (i : Nat) (f : Field)
    (x : Nat) (ha : i < a.len) (hs : s.lockstep) (hi : i < s.len) :
    (a.get_mut i).isSome = true ∧
    (∃ a', a.write i f x = some a' ∧ a'.readAt i f = some x ∧
      ∀ j f', j ≠ i ∨ f' ≠ f → a'.readAt j f' = a.readAt j f') ∧
    (s.get_mut i).isSome = true ∧
    ∃ s', s.write i f x = some s' ∧ s'.readAt i f = some x ∧
      ∀ j f', j ≠ i ∨ f' ≠ f → s'.readAt j f' = s.readAt j f' := by
  have haL : i < a.v.data.length := ha
  have hget : a.v.data[i]? = some a.v.data[i] := List.getElem?_eq_getElem haL
  have hsetg : (a.v.data.set i (a.v.data[i].setF f x))[i]? =
      some (a.v.data[i].setF f x) := List.getElem?_set_self (by simpa using haL)
  refine ⟨?_, ⟨⟨a.v.set i (a.v.data[i].setF f x)⟩, ?_, ?_, ?_⟩, ?_, ?_⟩
  · simp [RgbAos.get_mut, RVec.get, hget]
  · simp [RgbAos.write, RVec.get, hget]
  · simp [RgbAos.readAt, RgbAos.get, RVec.get, RVec.set, hsetg,
      RgbAosRef.field, getF_setF]
  · intro j f' hjf
    simp only [RgbAos.readAt, RgbAos.get, RVec.get, RVec.set, Option.map_map]
    rcases hjf with hj | hf
    · rw [List.getElem?_set_ne (Ne.symm hj)]
    · by_cases hj : j = i
      · subst hj
        rw [hsetg, hget]
        simp [RgbAosRef.field, getF_setF, hf]
      · rw [List.getElem?_set_ne (fun he => hj he.symm)]
  · unfold RgbSoa.get_mut
    rw [if_neg (by omega)]
    rfl
  · have hbuf : i < (s.buf f).len := by
      obtain ⟨hr, hg, hb⟩ := hs
      cases f <;> simp only [RgbSoa.buf] <;> omega
    obtain ⟨s', hw, hlen, hbf, hbf'⟩ := soa_write_spec s i f x hbuf
    refine ⟨s', hw, ?_, ?_⟩
    · rw [soa_readAt_eq, hlen, if_pos hi, hbf]
      unfold RVec.set RVec.get
      exact List.getElem?_set_self (by simpa [RVec.len] using hbuf)
    · intro j f' hjf
      rw [soa_readAt_eq, soa_readAt_eq, hlen]
      by_cases hj : j < s.len
      · rw [if_pos hj, if_pos hj]
        by_cases hff : f' = f
        · subst hff
          have hji : j ≠ i := hjf.resolve_right (fun h => h rfl)
          rw [hbf]
          unfold RVec.get RVec.set
          exact List.getElem?_set_ne (Ne.symm hji)
        · rw [hbf' f' hff]
      · rw [if_neg hj, if_neg hj]

/-- C9 witness at a concrete collection, index and field. -/
theorem claim9_write_frame_witness :
    ((⟨⟨[⟨1, 2, 3⟩], 4⟩⟩ : RgbAos).get_mut 0).isSome = true :=
  (claim9_write_frame ⟨⟨[⟨1, 2, 3⟩], 4⟩⟩ ⟨⟨[1], 1⟩, ⟨[2], 1⟩, ⟨[3], 1⟩⟩ 0
    Field.r 7 (by decide) (by decide) (by decide)).1

/-- C10: under the lockstep invariant, on a non-empty SoA collection every
    per-field `Vec::pop` returns `Some`, so the `unwrap` cannot panic and
    `pop` returns normally. -/
theorem claim10_pop_no_panic (s : RgbSoa) (hs : s.lockstep) (h : 0 < s.len) :
    ∃ x s', s.pop = some (some x, s') := by
  obtain ⟨x, s', hp, -⟩ := soa_pop_spec s hs (by omega)
  exact ⟨x, s', hp⟩

/-- C10 witness at a concrete non-empty lockstep collection. -/
theorem claim10_pop_no_panic_witness :
    ∃ x s', (⟨⟨[1], 1⟩, ⟨[2], 1⟩, ⟨[3], 1⟩⟩ : RgbSoa).pop = some (some x, s') :=
  claim10_pop_no_panic ⟨⟨[1], 1⟩, ⟨[2], 1⟩, ⟨[3], 1⟩⟩ (by decide) (by decide)

end Aossoa
